import Mathlib

/-!
Verification of the VietKy storefront core (src/src/App.js).

The JavaScript source is shallowly embedded: React state updaters become pure
functions on lists, JS numbers are modelled as `Int` (exact arithmetic; IEEE
floating point is idealized as exact rational/integer arithmetic, and ratings
are modelled as integers since only their linear order is used), JS strings as
Lean `String`/`List Char` (case mapping and whitespace trimmed by `trim` are
modelled over the ASCII range via `Char.toUpper`/an explicit whitespace test).
`localStorage` becomes a partial map from keys to stored strings, and
`JSON.stringify`/`JSON.parse` are embedded as an executable serializer and
parser over an inductive type of JSON values (numbers restricted to integers;
JS `undefined` and float literals are outside the model).
-/

namespace VietKy

/-- A catalog product, as produced by the admin form and the DEFAULT_PRODUCTS
seed: `id`, `name`, `price`, `category`, `stock`, `rating`, `images`,
`description` (App.js lines 41-150). -/
structure Product where
  id : String
  name : String
  price : Int
  category : String
  stock : Int
  rating : Int
  images : List String
  description : String
deriving DecidableEq

/-- A cart line item: denormalized copy of `id`/`name`/`price` plus the first
image and a quantity (App.js lines 236-243). -/
structure LineItem where
  id : String
  name : String
  price : Int
  qty : Int
  image : Option String
deriving DecidableEq

/-- Embeds `p.images?.[0] || null`: the first image if present, with the JS
falsy coalescing that turns an empty-string first image into `null`. -/
def firstImage (images : List String) : Option String :=
  match images.head? with
  | some s => if s = "" then none else some s
  | none => none

/-- Embeds `addToCart` (App.js lines 228-247): if a line item with the product
identifier exists, increment every matching item's quantity by `qty`;
otherwise append a new denormalized line item.  The JS parameter default is
`qty = 1`; callers passing no quantity correspond to `qty = 1` here. -/
def addToCart (prev : List LineItem) (p : Product) (qty : Int) : List LineItem :=
  if prev.any (fun i => i.id = p.id) then
    prev.map (fun i => if i.id = p.id then { i with qty := i.qty + qty } else i)
  else
    prev ++ [{ id := p.id, name := p.name, price := p.price, qty := qty,
               image := firstImage p.images }]

/-- Embeds `removeFromCart` (App.js lines 249-250). -/
def removeFromCart (prev : List LineItem) (id : String) : List LineItem :=
  prev.filter (fun i => i.id ≠ id)

/-- Embeds `updateQty` (App.js lines 251-254): clamp the new quantity of the
matching line item to at least 1 via `Math.max(1, qty)`. -/
def updateQty (prev : List LineItem) (id : String) (qty : Int) : List LineItem :=
  prev.map (fun i => if i.id = id then { i with qty := max 1 qty } else i)

/-- Embeds the `total` memo (App.js lines 210-213):
`cart.reduce((s, i) => s + i.price * i.qty, 0)`. -/
def cartSubtotal (cart : List LineItem) : Int :=
  cart.foldl (fun s i => s + i.price * i.qty) 0

/-- Embeds the shipping fee rule (App.js line 257):
`total > 500000 ? 0 : 30000`. -/
def shippingFee (total : Int) : Int :=
  if total > 500000 then 0 else 30000

/-- The character test used by JS `String.prototype.trim`, over the ASCII
range (space, tab, line feed, carriage return, vertical tab, form feed). -/
def isTrimmable (c : Char) : Bool :=
  c = ' ' || c = '\t' || c = '\n' || c = '\x0d' || c = '\x0b' || c = '\x0c'

/-- Embeds `coupon.trim()`: drop trimmable characters from both ends. -/
def trimChars (cs : List Char) : List Char :=
  ((cs.dropWhile isTrimmable).reverse.dropWhile isTrimmable).reverse

/-- Embeds `coupon.trim().toUpperCase()` over the characters of the coupon
string (ASCII case mapping). -/
def normalizeCoupon (coupon : String) : List Char :=
  (trimChars coupon.data).map Char.toUpper

/-- Embeds `Math.round(total * 0.1)` with exact arithmetic: JS `Math.round x`
is the floor of `x + 1/2`, so for `x = total / 10` this is
`(total + 5)` floor-divided by `10`. -/
def roundTenth (total : Int) : Int :=
  Int.fdiv (total + 5) 10

/-- Embeds the coupon discount in `CheckoutFooter` (App.js lines 787-789):
`coupon.trim().toUpperCase() === "VIETKY10" ? Math.round(total * 0.1) : 0`. -/
def couponDiscount (coupon : String) (total : Int) : Int :=
  if normalizeCoupon coupon = "VIETKY10".data then roundTenth total else 0

/-- Embeds the grand total (App.js line 790):
`Math.max(0, total + shippingFee - discount)`. -/
def grandTotal (total fee discount : Int) : Int :=
  max 0 (total + fee - discount)

/-- Embeds `Array.prototype.findIndex`: the first index whose element
satisfies the predicate (`-1`, i.e. no index, becomes `none`). -/
def findIndex (p : Product → Bool) : List Product → Option Nat
  | [] => none
  | x :: xs => if p x then some 0 else (findIndex p xs).map (· + 1)

/-- Embeds `upsertProduct` (App.js lines 267-277): replace in place at the
first index whose product has the same identifier, else prepend with a fresh
identifier (`uid()` is modelled by the explicit `freshId` argument). -/
def upsertProduct (list : List Product) (p : Product) (freshId : String) :
    List Product :=
  match findIndex (fun x => x.id = p.id) list with
  | some idx => list.set idx p
  | none => { p with id := freshId } :: list

/-- Embeds `deleteProduct` (App.js lines 279-280):
`list.filter((p) => p.id !== id)`. -/
def deleteProduct (list : List Product) (id : String) : List Product :=
  list.filter (fun p => p.id ≠ id)

/-- Lower-cased characters of a string, embedding `toLowerCase` over the
ASCII range. -/
def lowerChars (s : String) : List Char :=
  s.data.map Char.toLower

/-- Embeds JS `String.prototype.includes`: some tail of the haystack starts
with the needle. -/
def charsInclude (hay needle : List Char) : Bool :=
  hay.tails.any (fun t => needle.isPrefixOf t)

/-- The filter stage of the `filtered` memo (App.js lines 216-221): the name
filter applies only when the query is non-empty (JS truthiness of the string),
the category filter only when the category differs from the "all" sentinel. -/
def baseFiltered (products : List Product) (query category : String) :
    List Product :=
  let l1 := if query ≠ "" then
      products.filter (fun p => charsInclude (lowerChars p.name) (lowerChars query))
    else products
  if category ≠ "all" then l1.filter (fun p => p.category = category) else l1

/-- Comparator-as-order for `(a, b) => a.price - b.price`: `a` sorts no later
than `b` exactly when the comparator is nonpositive. -/
def byPriceAsc (a b : Product) : Prop := a.price ≤ b.price

/-- Comparator-as-order for `(a, b) => b.price - a.price`. -/
def byPriceDesc (a b : Product) : Prop := b.price ≤ a.price

/-- Comparator-as-order for `(a, b) => b.rating - a.rating`. -/
def byRatingDesc (a b : Product) : Prop := b.rating ≤ a.rating

instance : DecidableRel byPriceAsc :=
  fun a b => inferInstanceAs (Decidable (a.price ≤ b.price))

instance : DecidableRel byPriceDesc :=
  fun a b => inferInstanceAs (Decidable (b.price ≤ a.price))

instance : DecidableRel byRatingDesc :=
  fun a b => inferInstanceAs (Decidable (b.rating ≤ a.rating))

instance : IsTotal Product byPriceAsc := ⟨fun a b => Int.le_total a.price b.price⟩

instance : IsTotal Product byPriceDesc := ⟨fun a b => Int.le_total b.price a.price⟩

instance : IsTotal Product byRatingDesc := ⟨fun a b => Int.le_total b.rating a.rating⟩

instance : IsTrans Product byPriceAsc := ⟨fun _ _ _ h h' => le_trans h h'⟩

instance : IsTrans Product byPriceDesc := ⟨fun _ _ _ h h' => le_trans h' h⟩

instance : IsTrans Product byRatingDesc := ⟨fun _ _ _ h h' => le_trans h' h⟩

/-- Embeds the `filtered` memo (App.js lines 215-226): filters, then the three
independent `if (sort === ...)` statements, each applying a stable sort (JS
`Array.prototype.sort` is stable, and a stable sort's output is determined by
the order alone; `List.insertionSort` is the executable model). -/
def filteredView (products : List Product) (query category sort : String) :
    List Product :=
  let l2 := baseFiltered products query category
  let l3 := if sort = "priceAsc" then List.insertionSort byPriceAsc l2 else l2
  let l4 := if sort = "priceDesc" then List.insertionSort byPriceDesc l3 else l3
  if sort = "popular" then List.insertionSort byRatingDesc l4 else l4

end VietKy

namespace VietKy

/-- Number of cart line items carrying the given product identifier. -/
def countId (cart : List LineItem) (pid : String) : Nat :=
  cart.countP (fun i => i.id = pid)

/-- Total quantity stored across the line items with the given identifier. -/
def qtyOf (cart : List LineItem) (pid : String) : Int :=
  ((cart.filter (fun i => i.id = pid)).map (fun i => i.qty)).sum

/-- A sequence of `addToCart` calls applied left to right. -/
def addAll (cart : List LineItem) (calls : List (Product × Int)) : List LineItem :=
  calls.foldl (fun acc pq => addToCart acc pq.1 pq.2) cart

theorem countId_cons (i : LineItem) (c : List LineItem) (pid : String) :
    countId (i :: c) pid = (if i.id = pid then 1 else 0) + countId c pid := by
  by_cases h : i.id = pid <;> simp [countId, List.countP_cons, h, Nat.add_comm]

theorem qtyOf_cons (i : LineItem) (c : List LineItem) (pid : String) :
    qtyOf (i :: c) pid = (if i.id = pid then i.qty else 0) + qtyOf c pid := by
  by_cases h : i.id = pid <;> simp [qtyOf, List.filter_cons, h]

theorem countId_append (c d : List LineItem) (pid : String) :
    countId (c ++ d) pid = countId c pid + countId d pid :=
  List.countP_append _ c d

theorem qtyOf_append (c d : List LineItem) (pid : String) :
    qtyOf (c ++ d) pid = qtyOf c pid + qtyOf d pid := by
  simp [qtyOf, List.filter_append]

theorem qtyOf_eq_zero {c : List LineItem} {pid : String}
    (h : countId c pid = 0) : qtyOf c pid = 0 := by
  have hall := List.countP_eq_zero.mp h
  have : c.filter (fun i => i.id = pid) = [] := List.filter_eq_nil_iff.mpr hall
  simp [qtyOf, this]

theorem addToCart_fresh (c : List LineItem) (p : Product) (q : Int)
    (h : countId c p.id = 0) :
    addToCart c p q
      = c ++ [{ id := p.id, name := p.name, price := p.price, qty := q,
                image := firstImage p.images }] := by
  have hall := List.countP_eq_zero.mp h
  have hany : (c.any (fun i => i.id = p.id)) = false := by
    simp only [List.any_eq_false]
    exact hall
  simp [addToCart, hany]

theorem addToCart_existing (c : List LineItem) (p : Product) (q : Int)
    (h : 1 ≤ countId c p.id) :
    addToCart c p q
      = c.map (fun i => if i.id = p.id then { i with qty := i.qty + q } else i) := by
  have hex : ∃ i ∈ c, (decide (i.id = p.id)) = true := by
    have := List.countP_pos_iff.mp (by omega : 0 < countId c p.id)
    simpa using this
  have hany : (c.any (fun i => i.id = p.id)) = true := List.any_eq_true.mpr hex
  simp [addToCart, hany]

theorem countId_bump (c : List LineItem) (pid : String) (q : Int) :
    countId (c.map (fun i => if i.id = pid then { i with qty := i.qty + q } else i)) pid
      = countId c pid := by
  induction c with
  | nil => rfl
  | cons i c ih =>
    by_cases h : i.id = pid <;> simp [List.map_cons, countId_cons, h, ih]

theorem qtyOf_bump (c : List LineItem) (pid : String) (q : Int) :
    qtyOf (c.map (fun i => if i.id = pid then { i with qty := i.qty + q } else i)) pid
      = qtyOf c pid + (countId c pid : Int) * q := by
  induction c with
  | nil => simp [qtyOf, countId]
  | cons i c ih =>
    by_cases h : i.id = pid
    · simp only [List.map_cons, qtyOf_cons, countId_cons, h, if_pos, ih]
      push_cast
      ring
    · simp [List.map_cons, qtyOf_cons, countId_cons, h, ih]

theorem addAll_keeps (pid : String) (calls : List (Product × Int)) :
    ∀ (c : List LineItem), (∀ pq ∈ calls, pq.1.id = pid) → countId c pid = 1 →
    countId (addAll c calls) pid = 1 ∧
    qtyOf (addAll c calls) pid = qtyOf c pid + (calls.map (fun pq => pq.2)).sum := by
  induction calls with
  | nil => intro c _ hc; simp [addAll, hc]
  | cons pq calls ih =>
    intro c hall hc
    obtain ⟨p, q⟩ := pq
    have hpid : p.id = pid := hall (p, q) (by simp)
    have hone : 1 ≤ countId c p.id := by rw [hpid, hc]
    have hstep := addToCart_existing c p q hone
    have hc' : countId (addToCart c p q) pid = 1 := by
      rw [hstep, hpid, countId_bump, hc]
    have hq' : qtyOf (addToCart c p q) pid = qtyOf c pid + q := by
      rw [hstep, hpid, qtyOf_bump, hc]; push_cast; ring
    have := ih (addToCart c p q) (fun x hx => hall x (List.mem_cons_of_mem _ hx)) hc'
    refine ⟨this.1, ?_⟩
    have heq : addAll c ((p, q) :: calls) = addAll (addToCart c p q) calls := rfl
    rw [heq, this.2, hq']
    simp [add_assoc]

/-- C1: starting from a cart with no line item for `pid`, any non-empty
sequence of `addToCart` calls whose products all carry identifier `pid`
leaves exactly one line item for `pid`, whose quantity is the sum of the
quantities passed (a JS call using the parameter default corresponds to a
call with quantity 1). -/
theorem addToCart_merge_invariant (c0 : List LineItem) (pid : String)
    (calls : List (Product × Int))
    (hfresh : countId c0 pid = 0) (hne : calls ≠ [])
    (hall : ∀ pq ∈ calls, pq.1.id = pid) :
    countId (addAll c0 calls) pid = 1 ∧
    qtyOf (addAll c0 calls) pid = (calls.map (fun pq => pq.2)).sum := by
  match calls, hne with
  | (p, q) :: calls, _ =>
    have hpid : p.id = pid := hall (p, q) (by simp)
    have hstep := addToCart_fresh c0 p q (by rw [hpid, hfresh])
    have hc1 : countId (addToCart c0 p q) pid = 1 := by
      rw [hstep, countId_append, countId_cons, hfresh]
      simp [hpid, countId]
    have hq1 : qtyOf (addToCart c0 p q) pid = q := by
      rw [hstep, qtyOf_append, qtyOf_eq_zero hfresh, qtyOf_cons]
      simp [hpid, qtyOf]
    have heq : addAll c0 ((p, q) :: calls) = addAll (addToCart c0 p q) calls := rfl
    have := addAll_keeps pid calls (addToCart c0 p q)
      (fun x hx => hall x (List.mem_cons_of_mem _ hx)) hc1
    rw [heq, this.2, hq1] at *
    exact ⟨this.1, by simp⟩

/-- C1 witness: two calls for the same product identifier starting from the
empty cart yield one line item with the summed quantity. -/
theorem addToCart_merge_invariant_witness :
    countId (addAll []
      [(⟨"p1", "Áo", 169000, "Áo thun", 1, 5, [], ""⟩, 1),
       (⟨"p1", "Áo", 169000, "Áo thun", 1, 5, [], ""⟩, 2)]) "p1" = 1 ∧
    qtyOf (addAll []
      [(⟨"p1", "Áo", 169000, "Áo thun", 1, 5, [], ""⟩, 1),
       (⟨"p1", "Áo", 169000, "Áo thun", 1, 5, [], ""⟩, 2)]) "p1"
      = ([1, 2] : List Int).sum :=
  addToCart_merge_invariant [] "p1" _ (by decide) (by decide)
    (by
      intro pq h
      simp only [List.mem_cons, List.not_mem_nil, or_false] at h
      rcases h with rfl | rfl <;> rfl)

end VietKy


namespace VietKy

/-- A concrete line item used by witnesses: two shirts at 169000. -/
def shirtPair : LineItem := ⟨"p1", "Áo", 169000, 2, none⟩

/-- A concrete line item used by witnesses: three shirts at 169000. -/
def shirtTriple : LineItem := ⟨"p1", "Áo", 169000, 3, none⟩

/-- A concrete line item used by witnesses, with identifier p2. -/
def mugItem : LineItem := ⟨"p2", "Cốc", 99000, 1, none⟩

/-- A concrete catalog product used by witnesses, rating 1. -/
def prodA : Product := ⟨"a", "A", 10, "c", 1, 1, [], ""⟩

/-- A concrete catalog product used by witnesses, rating 5. -/
def prodB : Product := ⟨"b", "B", 20, "c", 1, 5, [], ""⟩

/-- A replacement for `prodB` sharing its identifier. -/
def prodB2 : Product := ⟨"b", "B2", 25, "c", 2, 4, [], ""⟩

theorem foldl_subtotal (c : List LineItem) :
    ∀ a : Int, c.foldl (fun s i => s + i.price * i.qty) a
      = a + ((c.map fun i => i.price * i.qty).sum) := by
  induction c with
  | nil => intro a; simp
  | cons i c ih => intro a; simp [List.foldl_cons, ih, add_assoc]

/-- C3: the subtotal is the sum over line items of price times quantity, and
the shipping fee is 0 exactly on subtotals strictly above 500000 and 30000
otherwise; at the boundary, 500000 still pays 30000 while 500001 ships free. -/
theorem subtotal_and_shipping (cart : List LineItem) :
    cartSubtotal cart = ((cart.map fun i => i.price * i.qty).sum) ∧
    (∀ s : Int, (500000 < s → shippingFee s = 0) ∧
      (s ≤ 500000 → shippingFee s = 30000)) ∧
    shippingFee 500000 = 30000 ∧ shippingFee 500001 = 0 := by
  refine ⟨by simpa [cartSubtotal] using foldl_subtotal cart 0,
    fun s => ⟨fun h => ?_, fun h => ?_⟩, by decide, by decide⟩
  · unfold shippingFee
    rw [if_pos h]
  · unfold shippingFee
    rw [if_neg (by omega)]

/-- C3 witness: the subtotal identity at a concrete cart, and both boundary
shipping fees. -/
theorem subtotal_and_shipping_witness :
    cartSubtotal [shirtPair]
      = (([shirtPair] : List LineItem).map fun i => i.price * i.qty).sum ∧
    shippingFee 500001 = 0 ∧ shippingFee 500000 = 30000 :=
  ⟨(subtotal_and_shipping [shirtPair]).1,
   ((subtotal_and_shipping []).2.1 500001).1 (by decide),
   ((subtotal_and_shipping []).2.1 500000).2 (by decide)⟩

/-- C2: the checkout discount is round(subtotal times 0.10) exactly when the
trimmed upper-cased coupon equals VIETKY10 and 0 for every other string, and
the grand total is max(0, subtotal + shippingFee - discount), hence never
negative (IEEE arithmetic idealized as exact arithmetic). -/
theorem coupon_discount_grand (cart : List LineItem) (coupon : String) :
    (normalizeCoupon coupon = "VIETKY10".data →
      couponDiscount coupon (cartSubtotal cart) = roundTenth (cartSubtotal cart)) ∧
    (normalizeCoupon coupon ≠ "VIETKY10".data →
      couponDiscount coupon (cartSubtotal cart) = 0) ∧
    grandTotal (cartSubtotal cart) (shippingFee (cartSubtotal cart))
        (couponDiscount coupon (cartSubtotal cart))
      = max 0 (cartSubtotal cart + shippingFee (cartSubtotal cart)
          - couponDiscount coupon (cartSubtotal cart)) ∧
    0 ≤ grandTotal (cartSubtotal cart) (shippingFee (cartSubtotal cart))
        (couponDiscount coupon (cartSubtotal cart)) :=
  ⟨fun h => by simp [couponDiscount, h],
   fun h => by simp [couponDiscount, h],
   rfl,
   le_max_left 0 _⟩

/-- C2 witness: the spec's example cart (169000 twice, subtotal 338000) with
an accepted coupon spelling and a rejected one; the discount at the accepted
spelling is round(338000/10) = 33800 and the grand total is 334200. -/
theorem coupon_discount_grand_witness :
    couponDiscount " vietky10 " (cartSubtotal [shirtPair])
      = roundTenth (cartSubtotal [shirtPair]) ∧
    couponDiscount "SALE20" (cartSubtotal [shirtPair]) = 0 ∧
    roundTenth (cartSubtotal [shirtPair]) = 33800 ∧
    grandTotal 338000 30000 33800 = 334200 :=
  ⟨(coupon_discount_grand [shirtPair] " vietky10 ").1 (by decide),
   (coupon_discount_grand [shirtPair] "SALE20").2.1 (by decide),
   by decide, by decide⟩

/-- C4: updateQty stores max(1, q) into the line item matching the
identifier: the matching item carries exactly max(1, q) afterwards, a
nonpositive q stores exactly 1, and the stored quantity is never below 1. -/
theorem updateQty_clamps (cart : List LineItem) (id : String) (q : Int) :
    ((∃ i ∈ cart, i.id = id) →
      ∃ j ∈ updateQty cart id q, j.id = id ∧ j.qty = max 1 q) ∧
    (∀ j ∈ updateQty cart id q, j.id = id → j.qty = max 1 q) ∧
    (q ≤ 0 → ∀ j ∈ updateQty cart id q, j.id = id → j.qty = 1) ∧
    (∀ j ∈ updateQty cart id q, j.id = id → 1 ≤ j.qty) := by
  have hstore : ∀ j ∈ updateQty cart id q, j.id = id → j.qty = max 1 q := by
    intro j hj hjid
    obtain ⟨i, hi, rfl⟩ := List.mem_map.mp hj
    by_cases h : i.id = id
    · simp [h]
    · rw [if_neg h] at hjid
      exact absurd hjid h
  refine ⟨?_, hstore, fun hq j hj hjid => ?_, fun j hj hjid => ?_⟩
  · rintro ⟨i, hi, hid⟩
    refine ⟨(fun i => if i.id = id then { i with qty := max 1 q } else i) i,
      List.mem_map_of_mem _ hi, ?_⟩
    simp [hid]
  · rw [hstore j hj hjid, max_eq_left (by omega : q ≤ 1)]
  · rw [hstore j hj hjid]
    exact le_max_left 1 q

/-- C4 witness: a negative update on a present identifier stores the clamp
max(1, -4) = 1. -/
theorem updateQty_clamps_witness :
    (∃ j ∈ updateQty [shirtTriple] "p1" (-4), j.id = "p1" ∧ j.qty = max 1 (-4)) ∧
    max (1 : Int) (-4) = 1 :=
  ⟨(updateQty_clamps [shirtTriple] "p1" (-4)).1 (by decide), by decide⟩

/-- C10: updateQty with an identifier no line item carries is a no-op, the
cart is returned unchanged as a sequence. -/
theorem updateQty_absent (cart : List LineItem) (id : String) (q : Int)
    (h : ∀ i ∈ cart, i.id ≠ id) : updateQty cart id q = cart := by
  have hfix : ∀ i ∈ cart,
      (if i.id = id then { i with qty := max 1 q } else i) = i :=
    fun i hi => if_neg (h i hi)
  calc cart.map (fun i => if i.id = id then { i with qty := max 1 q } else i)
      = cart.map (fun i => i) := List.map_congr_left hfix
    _ = cart := List.map_id' cart

/-- C10 witness: updating a missing identifier leaves a one-item cart
untouched. -/
theorem updateQty_absent_witness :
    updateQty [mugItem] "p1" 7 = [mugItem] :=
  updateQty_absent [mugItem] "p1" 7 (by decide)

/-- C7: deleting an identifier that occurs nowhere in the catalog returns the
catalog unchanged, element by element. -/
theorem deleteProduct_absent (list : List Product) (id : String)
    (h : ∀ p ∈ list, p.id ≠ id) : deleteProduct list id = list :=
  List.filter_eq_self.mpr (fun p hp => by simpa using h p hp)

/-- C7 witness: deleting a missing identifier from a two-product catalog is
the identity. -/
theorem deleteProduct_absent_witness :
    deleteProduct [prodA, prodB] "zz" = [prodA, prodB] :=
  deleteProduct_absent [prodA, prodB] "zz" (by decide)

theorem findIndex_spec (p : Product → Bool) :
    ∀ (l : List Product), (∃ x ∈ l, p x = true) →
    ∃ idx, findIndex p l = some idx ∧ idx < l.length ∧
      ∃ x, l[idx]? = some x ∧ p x = true
  | [], hex => by
    obtain ⟨x, hx, _⟩ := hex
    cases hx
  | a :: l, hex => by
    by_cases hpa : p a = true
    · exact ⟨0, by simp [findIndex, hpa], by simp, a, by simp, hpa⟩
    · obtain ⟨x, hx, hpx⟩ := hex
      have hx' : x ∈ l := by
        rcases List.mem_cons.mp hx with rfl | h'
        · exact absurd hpx hpa
        · exact h'
      obtain ⟨idx, hfi, hlt, y, hy, hpy⟩ := findIndex_spec p l ⟨x, hx', hpx⟩
      refine ⟨idx + 1, by simp [findIndex, hpa, hfi], ?_, y, by simpa using hy, hpy⟩
      simp only [List.length_cons]
      omega

/-- C6: upserting a product whose identifier already occurs replaces the
occupant of that position in place: same length, the slot now holds the new
product, and every other slot is untouched. -/
theorem upsert_replaces_in_place (list : List Product) (p : Product)
    (freshId : String) (h : ∃ x ∈ list, x.id = p.id) :
    ∃ idx, idx < list.length ∧
      (∃ x, list[idx]? = some x ∧ x.id = p.id) ∧
      upsertProduct list p freshId = list.set idx p ∧
      (upsertProduct list p freshId).length = list.length ∧
      (upsertProduct list p freshId)[idx]? = some p ∧
      (∀ j, j ≠ idx → (upsertProduct list p freshId)[j]? = list[j]?) := by
  have hex : ∃ x ∈ list, (fun x => decide (x.id = p.id)) x = true := by
    obtain ⟨x, hx, hid⟩ := h
    exact ⟨x, hx, by simp [hid]⟩
  obtain ⟨idx, hfi, hlt, x, hx, hpx⟩ := findIndex_spec _ list hex
  have hup : upsertProduct list p freshId = list.set idx p := by
    unfold upsertProduct
    rw [hfi]
  refine ⟨idx, hlt, ⟨x, hx, by simpa using hpx⟩, hup, ?_, ?_, ?_⟩
  · rw [hup]
    exact List.length_set ..
  · rw [hup]
    exact List.getElem?_set_self hlt
  · intro j hj
    rw [hup]
    exact List.getElem?_set_ne (Ne.symm hj)

/-- C6 witness: replacing the second product of a two-product catalog keeps
length and position. -/
theorem upsert_replaces_in_place_witness :
    ∃ idx, idx < ([prodA, prodB] : List Product).length ∧
      (∃ x, ([prodA, prodB] : List Product)[idx]? = some x ∧ x.id = prodB2.id) ∧
      upsertProduct [prodA, prodB] prodB2 "fresh"
        = ([prodA, prodB] : List Product).set idx prodB2 ∧
      (upsertProduct [prodA, prodB] prodB2 "fresh").length
        = ([prodA, prodB] : List Product).length ∧
      (upsertProduct [prodA, prodB] prodB2 "fresh")[idx]? = some prodB2 ∧
      (∀ j, j ≠ idx →
        (upsertProduct [prodA, prodB] prodB2 "fresh")[j]?
          = ([prodA, prodB] : List Product)[j]?) :=
  upsert_replaces_in_place [prodA, prodB] prodB2 "fresh" (by decide)

end VietKy

namespace VietKy

/-- C5 (amended): for sort modes drawn from the closed set the UI can assign,
any mode other than priceAsc and priceDesc (that is, popular) yields the
filtered list stably sorted descending by rating. -/
theorem filtered_popular_sorts (products : List Product)
    (query category sort : String)
    (hclosed : sort = "popular" ∨ sort = "priceAsc" ∨ sort = "priceDesc")
    (h1 : sort ≠ "priceAsc") (h2 : sort ≠ "priceDesc") :
    filteredView products query category sort
      = List.insertionSort byRatingDesc (baseFiltered products query category) ∧
    List.Sorted byRatingDesc (filteredView products query category sort) ∧
    (filteredView products query category sort).Perm
      (baseFiltered products query category) := by
  have hs : sort = "popular" := by
    rcases hclosed with h | h | h
    · exact h
    · exact absurd h h1
    · exact absurd h h2
  subst hs
  have hview : filteredView products query category "popular"
      = List.insertionSort byRatingDesc (baseFiltered products query category) := by
    simp [filteredView]
  refine ⟨hview, ?_, ?_⟩
  · rw [hview]
    exact List.sorted_insertionSort byRatingDesc _
  · rw [hview]
    exact List.perm_insertionSort byRatingDesc _

/-- C5 witness: with the default popular mode, a two-product catalog comes
back rating-descending. -/
theorem filtered_popular_sorts_witness :
    filteredView [prodA, prodB] "" "all" "popular"
      = List.insertionSort byRatingDesc (baseFiltered [prodA, prodB] "" "all") ∧
    List.Sorted byRatingDesc (filteredView [prodA, prodB] "" "all" "popular") ∧
    (filteredView [prodA, prodB] "" "all" "popular").Perm
      (baseFiltered [prodA, prodB] "" "all") :=
  filtered_popular_sorts [prodA, prodB] "" "all" "popular" (Or.inl rfl)
    (by decide) (by decide)

/-- C5 counterexample: the claim as stated quantifies over every sort mode
other than priceAsc and priceDesc, but a mode outside the closed set (here
the string newest) matches none of the three equality checks, so the filtered
order is preserved rather than sorted descending by rating: popular is a
literal equality case, not a catch-all. -/
theorem filtered_unknown_sort_counterexample :
    filteredView [prodA, prodB] "" "all" "newest" = [prodA, prodB] ∧
    filteredView [prodA, prodB] "" "all" "newest"
      ≠ List.insertionSort byRatingDesc (baseFiltered [prodA, prodB] "" "all") ∧
    ¬ List.Sorted byRatingDesc (filteredView [prodA, prodB] "" "all" "newest") :=
  ⟨by decide, by decide, by decide⟩

end VietKy

namespace VietKy

/-- A JSON value as exchanged by `JSON.stringify`/`JSON.parse`: the model of
the JSON-representable JS values the Persistence Adapter stores.  Numbers are
restricted to integers (floats idealized away); `undefined` does not exist in
JSON and is outside the model. -/
inductive Json where
  | null : Json
  | bool : Bool → Json
  | num : Int → Json
  | str : String → Json
  | arr : List Json → Json
  | obj : List (String × Json) → Json

/-- Lower-case hexadecimal digit character for `k < 16`, as produced by
`JSON.stringify` control-character escapes. -/
def hexChar (k : Nat) : Char :=
  if k < 10 then Char.ofNat (48 + k) else Char.ofNat (87 + k)

/-- The escape `JSON.stringify` applies to one string character: the two-char
escapes for quote, backslash, backspace, form feed, newline, carriage return
and tab, a `u00XX` escape for the remaining control characters, and the
character itself otherwise. -/
def escapeSeq (c : Char) : List Char :=
  if c = '"' then ['\\', '"']
  else if c = '\\' then ['\\', '\\']
  else if c = '\x08' then ['\\', 'b']
  else if c = '\x0c' then ['\\', 'f']
  else if c = '\n' then ['\\', 'n']
  else if c = '\x0d' then ['\\', 'r']
  else if c = '\t' then ['\\', 't']
  else if c.toNat < 32 then
    ['\\', 'u', '0', '0', hexChar (c.toNat / 16), hexChar (c.toNat % 16)]
  else [c]

/-- All characters of a string body, escaped. -/
def escapeChars : List Char → List Char
  | [] => []
  | c :: cs => escapeSeq c ++ escapeChars cs

/-- Decimal digit characters, structurally recursive on a fuel bound so that
the definition evaluates; any fuel above the argument suffices. -/
def digitCharsAux : Nat → Nat → List Char
  | 0, _ => []
  | fuel + 1, n =>
    if n < 10 then [Char.ofNat (48 + n)]
    else digitCharsAux fuel (n / 10) ++ [Char.ofNat (48 + n % 10)]

/-- Decimal digit characters of a natural number, most significant first. -/
def digitChars (n : Nat) : List Char :=
  digitCharsAux (n + 1) n

/-- Decimal characters of an integer: optional minus sign, then digits, as
`JSON.stringify` prints an integral number. -/
def intChars (n : Int) : List Char :=
  if n < 0 then '-' :: digitChars n.natAbs else digitChars n.natAbs

/-- The keyword the null value prints as. -/
def nullWord : List Char := "null".data

/-- The keyword the true value prints as. -/
def trueWord : List Char := "true".data

/-- The keyword the false value prints as. -/
def falseWord : List Char := "false".data

mutual

/-- Embeds `JSON.stringify` (character list form): no whitespace, object
fields in order, strings quoted and escaped. -/
def renderJson : Json → List Char
  | .null => nullWord
  | .bool true => trueWord
  | .bool false => falseWord
  | .num n => intChars n
  | .str s => '"' :: (escapeChars s.data ++ ['"'])
  | .arr xs => '[' :: (renderItems xs ++ [']'])
  | .obj fs => '{' :: (renderFields fs ++ ['}'])

/-- Array elements, comma separated. -/
def renderItems : List Json → List Char
  | [] => []
  | x :: xs => renderJson x ++ renderMoreItems xs

/-- Remaining array elements, each preceded by a comma. -/
def renderMoreItems : List Json → List Char
  | [] => []
  | x :: xs => ',' :: (renderJson x ++ renderMoreItems xs)

/-- Object members, comma separated, each a quoted key, a colon and a value. -/
def renderFields : List (String × Json) → List Char
  | [] => []
  | (k, v) :: fs =>
    '"' :: (escapeChars k.data ++ '"' :: ':' :: (renderJson v ++ renderMoreFields fs))

/-- Remaining object members, each preceded by a comma. -/
def renderMoreFields : List (String × Json) → List Char
  | [] => []
  | (k, v) :: fs =>
    ',' :: '"' :: (escapeChars k.data ++ '"' :: ':' :: (renderJson v ++ renderMoreFields fs))

end

/-- Embeds `JSON.stringify` producing a string. -/
def stringifyJson (v : Json) : String :=
  String.mk (renderJson v)

/-- Value of a hexadecimal digit character, if it is one. -/
def hexValue (c : Char) : Option Nat :=
  if 48 ≤ c.toNat ∧ c.toNat ≤ 57 then some (c.toNat - 48)
  else if 97 ≤ c.toNat ∧ c.toNat ≤ 102 then some (c.toNat - 87)
  else if 65 ≤ c.toNat ∧ c.toNat ≤ 70 then some (c.toNat - 55)
  else none

/-- The single-character JSON string escapes accepted after a backslash. -/
def unescapeChar (d : Char) : Option Char :=
  if d = '"' then some '"'
  else if d = '\\' then some '\\'
  else if d = '/' then some '/'
  else if d = 'b' then some '\x08'
  else if d = 'f' then some '\x0c'
  else if d = 'n' then some '\n'
  else if d = 'r' then some '\x0d'
  else if d = 't' then some '\t'
  else none

/-- Parse a JSON string body after the opening quote, up to and including the
closing quote, undoing escapes; fails on an unterminated or ill-escaped body
as `JSON.parse` throws there. -/
def parseStringBody : List Char → Option (List Char × List Char)
  | [] => none
  | c :: cs =>
    if c = '"' then some ([], cs)
    else if c = '\\' then
      match cs with
      | [] => none
      | d :: cs1 =>
        if d = 'u' then
          match cs1 with
          | h1 :: h2 :: h3 :: h4 :: cs2 =>
            match hexValue h1, hexValue h2, hexValue h3, hexValue h4 with
            | some a, some b, some e, some g =>
              match parseStringBody cs2 with
              | some (s, rest) =>
                some (Char.ofNat (((a * 16 + b) * 16 + e) * 16 + g) :: s, rest)
              | none => none
            | _, _, _, _ => none
          | _ => none
        else
          match unescapeChar d with
          | some u =>
            match parseStringBody cs1 with
            | some (s, rest) => some (u :: s, rest)
            | none => none
          | none => none
    else
      match parseStringBody cs with
      | some (s, rest) => some (c :: s, rest)
      | none => none

/-- Accumulate a run of decimal digits into a natural number, returning the
value and the remaining input. -/
def digitsVal (acc : Nat) : List Char → Nat × List Char
  | [] => (acc, [])
  | c :: cs =>
    if c.isDigit then digitsVal (acc * 10 + (c.toNat - 48)) cs else (acc, c :: cs)

/-- Parse an integral JSON number: optional minus sign, then at least one
digit (fraction and exponent forms are outside the integer model). -/
def parseIntChars : List Char → Option (Int × List Char)
  | [] => none
  | c :: cs =>
    if c = '-' then
      match cs with
      | [] => none
      | d :: _ =>
        if d.isDigit then
          let p := digitsVal 0 cs
          some (-(p.1 : Int), p.2)
        else none
    else if c.isDigit then
      let p := digitsVal 0 (c :: cs)
      some ((p.1 : Int), p.2)
    else none

mutual

/-- Embeds `JSON.parse` on a character list, structurally recursive on a fuel
bound: parse one value, returning it with the unconsumed remainder.
Whitespace skipping is not modelled (`JSON.stringify` output contains none). -/
def parseValue : Nat → List Char → Option (Json × List Char)
  | 0, _ => none
  | _ + 1, [] => none
  | f + 1, c :: cs =>
    if c = 'n' then
      match cs with
      | 'u' :: 'l' :: 'l' :: rest => some (.null, rest)
      | _ => none
    else if c = 't' then
      match cs with
      | 'r' :: 'u' :: 'e' :: rest => some (.bool true, rest)
      | _ => none
    else if c = 'f' then
      match cs with
      | 'a' :: 'l' :: 's' :: 'e' :: rest => some (.bool false, rest)
      | _ => none
    else if c = '"' then
      match parseStringBody cs with
      | some (s, rest) => some (.str (String.mk s), rest)
      | none => none
    else if c = '[' then
      match cs with
      | [] => none
      | d :: cs1 =>
        if d = ']' then some (.arr [], cs1)
        else
          match parseItems f (d :: cs1) with
          | some (xs, rest) => some (.arr xs, rest)
          | none => none
    else if c = '{' then
      match cs with
      | [] => none
      | d :: cs1 =>
        if d = '}' then some (.obj [], cs1)
        else
          match parseFields f (d :: cs1) with
          | some (fs, rest) => some (.obj fs, rest)
          | none => none
    else
      match parseIntChars (c :: cs) with
      | some (n, rest) => some (.num n, rest)
      | none => none

/-- One or more comma-separated array elements followed by the closing
bracket. -/
def parseItems : Nat → List Char → Option (List Json × List Char)
  | 0, _ => none
  | f + 1, cs =>
    match parseValue f cs with
    | some (v, ',' :: rest1) =>
      match parseItems f rest1 with
      | some (vs, rest2) => some (v :: vs, rest2)
      | none => none
    | some (v, ']' :: rest1) => some ([v], rest1)
    | _ => none

/-- One or more comma-separated quoted-key members followed by the closing
brace. -/
def parseFields : Nat → List Char → Option (List (String × Json) × List Char)
  | 0, _ => none
  | f + 1, cs =>
    match cs with
    | '"' :: cs1 =>
      match parseStringBody cs1 with
      | some (k, ':' :: cs2) =>
        match parseValue f cs2 with
        | some (v, ',' :: rest1) =>
          match parseFields f rest1 with
          | some (fs, rest2) => some ((String.mk k, v) :: fs, rest2)
          | none => none
        | some (v, '}' :: rest1) => some ([(String.mk k, v)], rest1)
        | _ => none
      | _ => none
    | _ => none

end

/-- Embeds `JSON.parse`: parse one value with fuel one past the input length
and require the whole input consumed; `none` is a thrown `SyntaxError`. -/
def parseJson (s : String) : Option Json :=
  match parseValue (s.data.length + 1) s.data with
  | some (v, []) => some v
  | _ => none

/-- The browser `localStorage` contents: a partial map from keys to the
stored strings. -/
def Store : Type := String → Option String

/-- A storage state with nothing stored. -/
def emptyStore : Store := fun _ => none

/-- Embeds `save` (App.js line 30):
`localStorage.setItem(k, JSON.stringify(v))`. -/
def save (store : Store) (k : String) (v : Json) : Store :=
  fun k2 => if k2 = k then some (stringifyJson v) else store k2

/-- Embeds `load` (App.js lines 31-38): `JSON.parse(localStorage.getItem(k))`
with the whole body in a try/catch returning the fallback, and `v ?? fallback`
on the parsed value.  A missing key makes `getItem` return `null`, which
`JSON.parse` coerces to the string "null"; a parse failure is the catch path;
a parsed `null` is coalesced to the fallback. -/
def load (store : Store) (k : String) (fallback : Json) : Json :=
  let raw : String :=
    match store k with
    | some s => s
    | none => "null"
  match parseJson raw with
  | none => fallback
  | some Json.null => fallback
  | some v => v

end VietKy

namespace VietKy

/-- Facts about the decimal digit character of `k < 10`: its code, digithood,
and its difference from every character the parser treats specially. -/
theorem digit_char_facts (k : Nat) (h : k < 10) :
    (Char.ofNat (48 + k)).toNat = 48 + k ∧
    (Char.ofNat (48 + k)).isDigit = true ∧
    Char.ofNat (48 + k) ≠ '-' ∧ Char.ofNat (48 + k) ≠ 'n' ∧
    Char.ofNat (48 + k) ≠ 't' ∧ Char.ofNat (48 + k) ≠ 'f' ∧
    Char.ofNat (48 + k) ≠ '"' ∧ Char.ofNat (48 + k) ≠ '[' ∧
    Char.ofNat (48 + k) ≠ '{' ∧ Char.ofNat (48 + k) ≠ ']' ∧
    Char.ofNat (48 + k) ≠ '}' ∧ Char.ofNat (48 + k) ≠ ',' := by
  interval_cases k <;> exact ⟨rfl, rfl, by decide, by decide, by decide, by decide,
    by decide, by decide, by decide, by decide, by decide, by decide⟩

theorem digitCharsAux_irrel (n : Nat) :
    ∀ f1 f2 : Nat, n < f1 → n < f2 → digitCharsAux f1 n = digitCharsAux f2 n := by
  induction n using Nat.strongRecOn with
  | _ n ih =>
    intro f1 f2 h1 h2
    match f1, h1 with
    | g1 + 1, _ =>
      match f2, h2 with
      | g2 + 1, _ =>
        by_cases hlt : n < 10
        · simp [digitCharsAux, hlt]
        · have hrec : n / 10 < n := Nat.div_lt_self (by omega) (by omega)
          simp only [digitCharsAux, if_neg hlt]
          rw [ih (n / 10) hrec g1 g2 (by omega) (by omega)]

/-- The specification-level unfolding of `digitChars`. -/
theorem digitChars_unfold (n : Nat) :
    digitChars n = if n < 10 then [Char.ofNat (48 + n)]
      else digitChars (n / 10) ++ [Char.ofNat (48 + n % 10)] := by
  by_cases hlt : n < 10
  · simp [digitChars, digitCharsAux, hlt]
  · rw [if_neg hlt]
    show digitCharsAux (n + 1) n = _
    rw [digitCharsAux, if_neg hlt]
    unfold digitChars
    rw [digitCharsAux_irrel (n / 10) n (n / 10 + 1) (by omega) (by omega)]

/-- Every digit run starts with a decimal digit character. -/
theorem digitChars_head (n : Nat) :
    ∃ k t, k < 10 ∧ digitChars n = Char.ofNat (48 + k) :: t := by
  induction n using Nat.strongRecOn with
  | _ n ih =>
    rw [digitChars_unfold]
    by_cases hlt : n < 10
    · exact ⟨n, [], hlt, by simp [hlt]⟩
    · have hrec : n / 10 < n := Nat.div_lt_self (by omega) (by omega)
      obtain ⟨k, t, hk, ht⟩ := ih (n / 10) hrec
      exact ⟨k, t ++ [Char.ofNat (48 + n % 10)], hk, by simp [hlt, ht]⟩

/-- Holds when the input cannot extend a decimal digit run: empty, or headed
by a non-digit.  Every delimiter the serializer emits after a number
qualifies. -/
def notDigitStart : List Char → Prop
  | [] => True
  | c :: _ => c.isDigit = false

/-- Powers of ten matching the digit count of `n` (only used inside proofs). -/
def pow10 (n : Nat) : Nat :=
  if n < 10 then 10 else 10 * pow10 (n / 10)
termination_by n
decreasing_by exact Nat.div_lt_self (by omega) (by omega)

/-- Accumulating the digits of `n` multiplies the accumulator by the matching
power of ten and adds `n`, leaving the tail untouched. -/
theorem digitsVal_run (n : Nat) :
    ∀ (acc : Nat) (tail : List Char),
      digitsVal acc (digitChars n ++ tail) = digitsVal (acc * pow10 n + n) tail := by
  induction n using Nat.strongRecOn with
  | _ n ih =>
    intro acc tail
    rw [digitChars_unfold, pow10]
    by_cases hlt : n < 10
    · obtain ⟨htn, hdig, -⟩ := digit_char_facts n hlt
      simp [hlt, digitsVal, hdig, htn]
    · have hrec : n / 10 < n := Nat.div_lt_self (by omega) (by omega)
      have hm : n % 10 < 10 := Nat.mod_lt _ (by omega)
      obtain ⟨htn, hdig, -⟩ := digit_char_facts (n % 10) hm
      rw [if_neg hlt, if_neg hlt, List.append_assoc, List.cons_append,
        List.nil_append, ih (n / 10) hrec]
      simp only [digitsVal, hdig, if_pos, htn]
      have harith : (acc * pow10 (n / 10) + n / 10) * 10 + (48 + n % 10 - 48)
          = acc * (10 * pow10 (n / 10)) + n := by
        have := Nat.div_add_mod n 10
        ring_nf
        omega
      rw [harith]

/-- A digit run stops at the first non-digit (or the end of input). -/
theorem digitsVal_stop (acc : Nat) (tail : List Char) (h : notDigitStart tail) :
    digitsVal acc tail = (acc, tail) := by
  match tail with
  | [] => rfl
  | c :: t =>
    have hc : c.isDigit = false := h
    simp [digitsVal, hc]

end VietKy

namespace VietKy

/-- Parsing a rendered integer recovers it whenever the remainder cannot
extend the digit run. -/
theorem parseIntChars_round (n : Int) (rest : List Char)
    (hrest : notDigitStart rest) :
    parseIntChars (intChars n ++ rest) = some (n, rest) := by
  obtain ⟨k, t, hk, ht⟩ := digitChars_head n.natAbs
  obtain ⟨htn, hdig, hminus, -⟩ := digit_char_facts k hk
  have hrun : digitsVal 0 (digitChars n.natAbs ++ rest) = (n.natAbs, rest) := by
    rw [digitsVal_run, Nat.zero_mul, Nat.zero_add, digitsVal_stop _ _ hrest]
  have hrun2 : digitsVal 0 (Char.ofNat (48 + k) :: (t ++ rest)) = (n.natAbs, rest) := by
    rw [← List.cons_append, ← ht]
    exact hrun
  by_cases hneg : n < 0
  · have harg : intChars n ++ rest = '-' :: (Char.ofNat (48 + k) :: (t ++ rest)) := by
      simp [intChars, hneg, ht]
    rw [harg, parseIntChars.eq_def]
    simp only [hdig, if_pos, if_true, reduceIte, hrun2]
    refine congrArg some (Prod.ext ?_ rfl)
    simp only []
    omega
  · have harg : intChars n ++ rest = Char.ofNat (48 + k) :: (t ++ rest) := by
      simp [intChars, hneg, ht]
    rw [harg, parseIntChars.eq_def]
    simp only [if_neg hminus, hdig, if_true, reduceIte, hrun2]
    refine congrArg some (Prod.ext ?_ rfl)
    simp only []
    omega

/-- Hexadecimal digit characters carry their value. -/
theorem hexValue_hexChar (k : Nat) (h : k < 16) : hexValue (hexChar k) = some k := by
  interval_cases k <;> rfl

/-- Parsing one escape sequence prepends the escaped character and continues
with the remaining body. -/
theorem parseStringBody_escapeSeq (c : Char) (tail : List Char) :
    parseStringBody (escapeSeq c ++ tail)
      = (match parseStringBody tail with
         | some (s, r) => some (c :: s, r)
         | none => none) := by
  unfold escapeSeq
  split_ifs with h1 h2 h3 h4 h5 h6 h7 h8
  · subst h1
    conv_lhs => rw [parseStringBody.eq_def]
    simp [unescapeChar]
  · subst h2
    conv_lhs => rw [parseStringBody.eq_def]
    simp [unescapeChar]
  · subst h3
    conv_lhs => rw [parseStringBody.eq_def]
    simp [unescapeChar]
  · subst h4
    conv_lhs => rw [parseStringBody.eq_def]
    simp [unescapeChar]
  · subst h5
    conv_lhs => rw [parseStringBody.eq_def]
    simp [unescapeChar]
  · subst h6
    conv_lhs => rw [parseStringBody.eq_def]
    simp [unescapeChar]
  · subst h7
    conv_lhs => rw [parseStringBody.eq_def]
    simp [unescapeChar]
  · have hdiv : c.toNat / 16 < 16 := by omega
    have hmod : c.toNat % 16 < 16 := Nat.mod_lt _ (by omega)
    simp only [List.cons_append, List.nil_append]
    conv_lhs => rw [parseStringBody.eq_def]
    simp [hexValue_hexChar _ hdiv, hexValue_hexChar _ hmod,
      show hexValue '0' = some 0 from rfl]
    rw [show c.toNat / 16 * 16 + c.toNat % 16 = c.toNat from by omega, Char.ofNat_toNat]
  · simp only [List.cons_append, List.nil_append]
    conv_lhs => rw [parseStringBody.eq_def]
    simp [h1, h2]

/-- The string-body codec round-trip: parsing an escaped body up to the
closing quote recovers the original characters. -/
theorem parseStringBody_escapeChars (s : List Char) (rest : List Char) :
    parseStringBody (escapeChars s ++ '"' :: rest) = some (s, rest) := by
  induction s with
  | nil =>
    rw [show escapeChars [] ++ '"' :: rest = '"' :: rest from rfl]
    conv_lhs => rw [parseStringBody.eq_def]
    simp
  | cons c s ih =>
    rw [show escapeChars (c :: s) = escapeSeq c ++ escapeChars s from rfl,
      List.append_assoc, parseStringBody_escapeSeq, ih]

end VietKy

namespace VietKy

/-- Every rendered value begins with a character that closes neither an array
nor an object. -/
theorem renderJson_head (v : Json) :
    ∃ c t, renderJson v = c :: t ∧ c ≠ ']' ∧ c ≠ '}' := by
  cases v with
  | null => exact ⟨'n', _, rfl, by decide, by decide⟩
  | bool b =>
    cases b with
    | true => exact ⟨'t', _, rfl, by decide, by decide⟩
    | false => exact ⟨'f', _, rfl, by decide, by decide⟩
  | num n =>
    by_cases hneg : n < 0
    · refine ⟨'-', digitChars n.natAbs, ?_, by decide, by decide⟩
      simp [renderJson, intChars, hneg]
    · obtain ⟨k, t, hk, ht⟩ := digitChars_head n.natAbs
      obtain ⟨-, -, -, -, -, -, -, -, -, hrb, hcb, -⟩ := digit_char_facts k hk
      refine ⟨Char.ofNat (48 + k), t, ?_, hrb, hcb⟩
      simp [renderJson, intChars, hneg, ht]
  | str s => exact ⟨'"', _, rfl, by decide, by decide⟩
  | arr xs => exact ⟨'[', _, rfl, by decide, by decide⟩
  | obj fs => exact ⟨'{', _, rfl, by decide, by decide⟩

/-- Rendered values are never empty. -/
theorem renderJson_length_pos (v : Json) : 1 ≤ (renderJson v).length := by
  obtain ⟨c, t, h, -, -⟩ := renderJson_head v
  rw [h]
  simp

theorem renderItems_single (x : Json) : renderItems [x] = renderJson x := by
  simp [renderItems, renderMoreItems]

theorem renderItems_cons2 (x y : Json) (ys : List Json) :
    renderItems (x :: y :: ys) = renderJson x ++ ',' :: renderItems (y :: ys) := by
  simp [renderItems, renderMoreItems]

theorem renderFields_single (k : String) (v : Json) :
    renderFields [(k, v)]
      = '"' :: (escapeChars k.data ++ '"' :: ':' :: renderJson v) := by
  simp [renderFields, renderMoreFields]

theorem renderFields_cons2 (k : String) (v : Json) (kv : String × Json)
    (fs : List (String × Json)) :
    renderFields ((k, v) :: kv :: fs)
      = '"' :: (escapeChars k.data ++ '"' :: ':'
          :: (renderJson v ++ ',' :: renderFields (kv :: fs))) := by
  obtain ⟨k2, v2⟩ := kv
  simp [renderFields, renderMoreFields]

theorem parseValue_lit_null (f : Nat) (rest : List Char) :
    parseValue (f + 1) ('n' :: 'u' :: 'l' :: 'l' :: rest) = some (.null, rest) := rfl

theorem parseValue_lit_true (f : Nat) (rest : List Char) :
    parseValue (f + 1) ('t' :: 'r' :: 'u' :: 'e' :: rest) = some (.bool true, rest) := rfl

theorem parseValue_lit_false (f : Nat) (rest : List Char) :
    parseValue (f + 1) ('f' :: 'a' :: 'l' :: 's' :: 'e' :: rest)
      = some (.bool false, rest) := rfl

theorem parseValue_quote (f : Nat) (cs : List Char) :
    parseValue (f + 1) ('"' :: cs)
      = (match parseStringBody cs with
         | some (s, rest) => some (Json.str (String.mk s), rest)
         | none => none) := rfl

theorem parseValue_arr_nil (f : Nat) (rest : List Char) :
    parseValue (f + 1) ('[' :: ']' :: rest) = some (.arr [], rest) := rfl

theorem parseValue_obj_nil (f : Nat) (rest : List Char) :
    parseValue (f + 1) ('{' :: '}' :: rest) = some (.obj [], rest) := rfl

theorem parseValue_arr_step (f : Nat) (d : Char) (cs1 : List Char) (hd : d ≠ ']') :
    parseValue (f + 1) ('[' :: d :: cs1)
      = (match parseItems f (d :: cs1) with
         | some (xs, rest) => some (Json.arr xs, rest)
         | none => none) := by
  have h0 : parseValue (f + 1) ('[' :: d :: cs1)
      = if d = ']' then some (Json.arr [], cs1)
        else (match parseItems f (d :: cs1) with
              | some (xs, rest) => some (Json.arr xs, rest)
              | none => none) := rfl
  rw [h0, if_neg hd]

theorem parseValue_obj_step (f : Nat) (d : Char) (cs1 : List Char) (hd : d ≠ '}') :
    parseValue (f + 1) ('{' :: d :: cs1)
      = (match parseFields f (d :: cs1) with
         | some (fs, rest) => some (Json.obj fs, rest)
         | none => none) := by
  have h0 : parseValue (f + 1) ('{' :: d :: cs1)
      = if d = '}' then some (Json.obj [], cs1)
        else (match parseFields f (d :: cs1) with
              | some (fs, rest) => some (Json.obj fs, rest)
              | none => none) := rfl
  rw [h0, if_neg hd]

theorem parseValue_other (f : Nat) (c : Char) (cs : List Char)
    (h1 : c ≠ 'n') (h2 : c ≠ 't') (h3 : c ≠ 'f') (h4 : c ≠ '"')
    (h5 : c ≠ '[') (h6 : c ≠ '{') :
    parseValue (f + 1) (c :: cs)
      = (match parseIntChars (c :: cs) with
         | some (n, rest) => some (Json.num n, rest)
         | none => none) := by
  have h0 : parseValue (f + 1) (c :: cs)
      = if c = 'n' then
          (match cs with
           | 'u' :: 'l' :: 'l' :: rest => some (Json.null, rest)
           | _ => none)
        else if c = 't' then
          (match cs with
           | 'r' :: 'u' :: 'e' :: rest => some (Json.bool true, rest)
           | _ => none)
        else if c = 'f' then
          (match cs with
           | 'a' :: 'l' :: 's' :: 'e' :: rest => some (Json.bool false, rest)
           | _ => none)
        else if c = '"' then
          (match parseStringBody cs with
           | some (s, rest) => some (Json.str (String.mk s), rest)
           | none => none)
        else if c = '[' then
          (match cs with
           | [] => none
           | d :: cs1 =>
             if d = ']' then some (Json.arr [], cs1)
             else match parseItems f (d :: cs1) with
                  | some (xs, rest) => some (Json.arr xs, rest)
                  | none => none)
        else if c = '{' then
          (match cs with
           | [] => none
           | d :: cs1 =>
             if d = '}' then some (Json.obj [], cs1)
             else match parseFields f (d :: cs1) with
                  | some (fs, rest) => some (Json.obj fs, rest)
                  | none => none)
        else
          (match parseIntChars (c :: cs) with
           | some (n, rest) => some (Json.num n, rest)
           | none => none) := rfl
  rw [h0, if_neg h1, if_neg h2, if_neg h3, if_neg h4, if_neg h5, if_neg h6]

theorem parseItems_step (f : Nat) (cs : List Char) :
    parseItems (f + 1) cs
      = (match parseValue f cs with
         | some (v, ',' :: rest1) =>
           (match parseItems f rest1 with
            | some (vs, rest2) => some (v :: vs, rest2)
            | none => none)
         | some (v, ']' :: rest1) => some ([v], rest1)
         | _ => none) := rfl

theorem parseFields_step (f : Nat) (cs : List Char) :
    parseFields (f + 1) cs
      = (match cs with
         | '"' :: cs1 =>
           (match parseStringBody cs1 with
            | some (k, ':' :: cs2) =>
              (match parseValue f cs2 with
               | some (v, ',' :: rest1) =>
                 (match parseFields f rest1 with
                  | some (fs, rest2) => some ((String.mk k, v) :: fs, rest2)
                  | none => none)
               | some (v, '}' :: rest1) => some ([(String.mk k, v)], rest1)
               | _ => none)
            | _ => none)
         | _ => none) := rfl

end VietKy

namespace VietKy

mutual

/-- Parsing a rendered value with enough fuel recovers it exactly, for any
remainder that cannot extend a digit run. -/
theorem roundtrip_value : ∀ (v : Json) (fuel : Nat) (rest : List Char),
    (renderJson v).length < fuel → notDigitStart rest →
    parseValue fuel (renderJson v ++ rest) = some (v, rest)
  | .null, fuel, rest, hf, _ => by
    cases fuel with
    | zero => exact absurd hf (by omega)
    | succ f => exact parseValue_lit_null f rest
  | .bool true, fuel, rest, hf, _ => by
    cases fuel with
    | zero => exact absurd hf (by omega)
    | succ f => exact parseValue_lit_true f rest
  | .bool false, fuel, rest, hf, _ => by
    cases fuel with
    | zero => exact absurd hf (by omega)
    | succ f => exact parseValue_lit_false f rest
  | .num n, fuel, rest, hf, hr => by
    cases fuel with
    | zero => exact absurd hf (by omega)
    | succ f =>
      by_cases hneg : n < 0
      · have harg : renderJson (Json.num n) ++ rest
            = '-' :: (digitChars n.natAbs ++ rest) := by
          simp [renderJson, intChars, hneg]
        have hback : '-' :: (digitChars n.natAbs ++ rest) = intChars n ++ rest := by
          simp [intChars, hneg]
        rw [harg, parseValue_other f '-' _ (by decide) (by decide) (by decide)
          (by decide) (by decide) (by decide), hback, parseIntChars_round n rest hr]
      · obtain ⟨k, t, hk, ht⟩ := digitChars_head n.natAbs
        obtain ⟨-, -, -, hn, htc, hfc, hq, ha, ho, -, -, -⟩ := digit_char_facts k hk
        have harg : renderJson (Json.num n) ++ rest
            = Char.ofNat (48 + k) :: (t ++ rest) := by
          simp [renderJson, intChars, hneg, ht]
        have hback : Char.ofNat (48 + k) :: (t ++ rest) = intChars n ++ rest := by
          simp [intChars, hneg, ht]
        rw [harg, parseValue_other f _ _ hn htc hfc hq ha ho, hback,
          parseIntChars_round n rest hr]
  | .str s, fuel, rest, hf, _ => by
    cases fuel with
    | zero => exact absurd hf (by omega)
    | succ f =>
      have harg : renderJson (Json.str s) ++ rest
          = '"' :: (escapeChars s.data ++ '"' :: rest) := by
        simp [renderJson]
      rw [harg, parseValue_quote, parseStringBody_escapeChars]
  | .arr [], fuel, rest, hf, _ => by
    cases fuel with
    | zero => exact absurd hf (by omega)
    | succ f =>
      have harg : renderJson (Json.arr []) ++ rest = '[' :: ']' :: rest := by
        simp [renderJson, renderItems]
      rw [harg, parseValue_arr_nil]
  | .arr (x :: xs), fuel, rest, hf, _ => by
    cases fuel with
    | zero => exact absurd hf (by omega)
    | succ f =>
      obtain ⟨c, t, hcx, hcne, -⟩ := renderJson_head x
      have harg : renderJson (Json.arr (x :: xs)) ++ rest
          = '[' :: (renderItems (x :: xs) ++ ']' :: rest) := by
        simp [renderJson]
      have hsplit : renderItems (x :: xs) ++ ']' :: rest
          = c :: (t ++ (renderMoreItems xs ++ ']' :: rest)) := by
        simp [renderItems, hcx]
      have hlen : (renderItems (x :: xs)).length + 1 < f := by
        have : (renderJson (Json.arr (x :: xs))).length
            = (renderItems (x :: xs)).length + 2 := by
          simp [renderJson]
        omega
      have hi := roundtrip_items x xs f rest hlen
      rw [harg, hsplit, parseValue_arr_step f c _ hcne, ← hsplit]
      simp only [hi]
  | .obj [], fuel, rest, hf, _ => by
    cases fuel with
    | zero => exact absurd hf (by omega)
    | succ f =>
      have harg : renderJson (Json.obj []) ++ rest = '{' :: '}' :: rest := by
        simp [renderJson, renderFields]
      rw [harg, parseValue_obj_nil]
  | .obj ((k, v) :: fs), fuel, rest, hf, _ => by
    cases fuel with
    | zero => exact absurd hf (by omega)
    | succ f =>
      have harg : renderJson (Json.obj ((k, v) :: fs)) ++ rest
          = '{' :: (renderFields ((k, v) :: fs) ++ '}' :: rest) := by
        simp [renderJson]
      have hsplit : renderFields ((k, v) :: fs) ++ '}' :: rest
          = '"' :: (escapeChars k.data ++ '"' :: ':'
              :: (renderJson v ++ renderMoreFields fs) ++ '}' :: rest) := by
        simp [renderFields]
      have hlen : (renderFields ((k, v) :: fs)).length + 1 < f := by
        have : (renderJson (Json.obj ((k, v) :: fs))).length
            = (renderFields ((k, v) :: fs)).length + 2 := by
          simp [renderJson]
        omega
      have hq := roundtrip_fields (k, v) fs f rest hlen
      rw [harg, hsplit, parseValue_obj_step f '"' _ (by decide), ← hsplit]
      simp only [hq]
termination_by v _ _ _ _ => sizeOf v

/-- Parsing rendered array elements followed by the closing bracket recovers
the element list. -/
theorem roundtrip_items : ∀ (x : Json) (xs : List Json) (fuel : Nat)
    (rest : List Char),
    (renderItems (x :: xs)).length + 1 < fuel →
    parseItems fuel (renderItems (x :: xs) ++ ']' :: rest) = some (x :: xs, rest)
  | x, [], fuel, rest, hf => by
    cases fuel with
    | zero => exact absurd hf (by omega)
    | succ f =>
      have hlen : (renderJson x).length < f := by
        rw [renderItems_single] at hf
        omega
      have hv := roundtrip_value x f (']' :: rest) hlen
        (show notDigitStart (']' :: rest) from rfl)
      rw [show renderItems [x] ++ ']' :: rest = renderJson x ++ ']' :: rest from
        by rw [renderItems_single], parseItems_step]
      simp only [hv]
  | x, y :: ys, fuel, rest, hf => by
    cases fuel with
    | zero => exact absurd hf (by omega)
    | succ f =>
      have hxpos := renderJson_length_pos x
      have hflen : (renderItems (x :: y :: ys)).length
          = (renderJson x).length + 1 + (renderItems (y :: ys)).length := by
        rw [renderItems_cons2]
        simp only [List.length_append, List.length_cons]
        omega
      have hlen1 : (renderJson x).length < f := by omega
      have hlen2 : (renderItems (y :: ys)).length + 1 < f := by omega
      have hv := roundtrip_value x f (',' :: (renderItems (y :: ys) ++ ']' :: rest))
        hlen1 (show notDigitStart (',' :: _) from rfl)
      have hi := roundtrip_items y ys f rest hlen2
      rw [show renderItems (x :: y :: ys) ++ ']' :: rest
          = renderJson x ++ (',' :: (renderItems (y :: ys) ++ ']' :: rest)) from
        by rw [renderItems_cons2]; simp, parseItems_step]
      simp only [hv, hi]
termination_by x xs _ _ _ => sizeOf x + sizeOf xs

/-- Parsing rendered object members followed by the closing brace recovers
the member list. -/
theorem roundtrip_fields : ∀ (kv : String × Json) (fs : List (String × Json))
    (fuel : Nat) (rest : List Char),
    (renderFields (kv :: fs)).length + 1 < fuel →
    parseFields fuel (renderFields (kv :: fs) ++ '}' :: rest) = some (kv :: fs, rest)
  | (k, v), [], fuel, rest, hf => by
    cases fuel with
    | zero => exact absurd hf (by omega)
    | succ f =>
      have hflen : (renderFields [(k, v)]).length
          = (escapeChars k.data).length + 3 + (renderJson v).length := by
        rw [renderFields_single]
        simp
        omega
      have hlen : (renderJson v).length < f := by omega
      have hv := roundtrip_value v f ('}' :: rest) hlen
        (show notDigitStart ('}' :: rest) from rfl)
      have harg : renderFields [(k, v)] ++ '}' :: rest
          = '"' :: (escapeChars k.data ++ '"' :: (':' :: (renderJson v ++ '}' :: rest))) := by
        rw [renderFields_single]
        simp
      rw [harg, parseFields_step]
      simp only [parseStringBody_escapeChars, hv]
  | (k, v), (k2, v2) :: fs, fuel, rest, hf => by
    cases fuel with
    | zero => exact absurd hf (by omega)
    | succ f =>
      have hvpos := renderJson_length_pos v
      have hflen : (renderFields ((k, v) :: (k2, v2) :: fs)).length
          = (escapeChars k.data).length + 3 + (renderJson v).length
            + 1 + (renderFields ((k2, v2) :: fs)).length := by
        rw [renderFields_cons2]
        simp
        omega
      have hlen1 : (renderJson v).length < f := by omega
      have hlen2 : (renderFields ((k2, v2) :: fs)).length + 1 < f := by omega
      have hv := roundtrip_value v f
        (',' :: (renderFields ((k2, v2) :: fs) ++ '}' :: rest)) hlen1
        (show notDigitStart (',' :: _) from rfl)
      have hq := roundtrip_fields (k2, v2) fs f rest hlen2
      have harg : renderFields ((k, v) :: (k2, v2) :: fs) ++ '}' :: rest
          = '"' :: (escapeChars k.data ++ '"' :: (':'
              :: (renderJson v ++ ',' :: (renderFields ((k2, v2) :: fs) ++ '}' :: rest)))) := by
        rw [renderFields_cons2]
        simp
      rw [harg, parseFields_step]
      simp only [parseStringBody_escapeChars, hv, hq]
termination_by kv fs _ _ _ => sizeOf kv.2 + sizeOf fs

end

end VietKy

namespace VietKy

/-- The codec round-trip: `JSON.parse` recovers exactly what `JSON.stringify`
wrote, for every modelled JSON value. -/
theorem parseJson_stringify (v : Json) : parseJson (stringifyJson v) = some v := by
  have h := roundtrip_value v ((renderJson v).length + 1) [] (by omega) trivial
  rw [List.append_nil] at h
  have hdata : (stringifyJson v).data = renderJson v := rfl
  unfold parseJson
  rw [hdata, h]

/-- C9: `load` returns the fallback, without any fault escaping, when the key
is missing (getItem yields null, which JSON.parse reads as the null value),
when the stored string fails to parse (the catch path), and when the stored
value parses to the explicit JSON null (the null-coalescing path).  `load` is
a total function, so no exception reaches the caller in any of these cases. -/
theorem load_fallback_cases (store : Store) (k : String) (fallback : Json) :
    (store k = none → load store k fallback = fallback) ∧
    (∀ s, store k = some s → parseJson s = none → load store k fallback = fallback) ∧
    (∀ s, store k = some s → parseJson s = some Json.null →
      load store k fallback = fallback) := by
  refine ⟨fun h => ?_, fun s hs hp => ?_, fun s hs hp => ?_⟩
  · unfold load
    rw [h]
    show (match parseJson "null" with
          | none => fallback
          | some Json.null => fallback
          | some w => w) = fallback
    rw [show parseJson "null" = some Json.null from rfl]
  · unfold load
    rw [hs]
    show (match parseJson s with
          | none => fallback
          | some Json.null => fallback
          | some w => w) = fallback
    rw [hp]
  · unfold load
    rw [hs]
    show (match parseJson s with
          | none => fallback
          | some Json.null => fallback
          | some w => w) = fallback
    rw [hp]

/-- C9 witness: a missing key, the unparsable stored string "nope", and an
explicitly stored null all yield the fallback 7. -/
theorem load_fallback_cases_witness :
    load emptyStore "vk_cart" (Json.num 7) = Json.num 7 ∧
    load (fun k2 => if k2 = "vk_cart" then some "nope" else none) "vk_cart"
        (Json.num 7) = Json.num 7 ∧
    load (fun k2 => if k2 = "vk_cart" then some "null" else none) "vk_cart"
        (Json.num 7) = Json.num 7 :=
  ⟨(load_fallback_cases emptyStore "vk_cart" (Json.num 7)).1 rfl,
   (load_fallback_cases _ "vk_cart" (Json.num 7)).2.1 "nope" rfl rfl,
   (load_fallback_cases _ "vk_cart" (Json.num 7)).2.2 "null" rfl rfl⟩

/-- C8 (amended): `save` then `load` returns the saved value for every
JSON-representable value except the JSON null; a saved null is coalesced to
the fallback by the load path. -/
theorem load_save_roundtrip (store : Store) (k : String) (v fallback : Json)
    (hv : v ≠ Json.null) : load (save store k v) k fallback = v := by
  have hget : save store k v k = some (stringifyJson v) := by
    unfold save
    rw [if_pos rfl]
  unfold load
  rw [hget]
  show (match parseJson (stringifyJson v) with
        | none => fallback
        | some Json.null => fallback
        | some w => w) = v
  rw [parseJson_stringify]
  cases v with
  | null => exact absurd rfl hv
  | bool b => rfl
  | num n => rfl
  | str s => rfl
  | arr xs => rfl
  | obj fs => rfl

/-- C8 witness: a saved cart-like object round-trips through storage. -/
theorem load_save_roundtrip_witness :
    (Json.obj [("id", Json.str "p1"), ("qty", Json.num 2)]) ≠ Json.null ∧
    load (save emptyStore "vk_cart"
        (Json.obj [("id", Json.str "p1"), ("qty", Json.num 2)])) "vk_cart" Json.null
      = Json.obj [("id", Json.str "p1"), ("qty", Json.num 2)] :=
  ⟨fun h => Json.noConfusion h,
   load_save_roundtrip emptyStore "vk_cart" _ Json.null (fun h => Json.noConfusion h)⟩

/-- C8 counterexample: the round-trip fails at the JSON null value, which is
JSON-representable; load returns the fallback 42 instead of the saved null. -/
theorem load_save_null_counterexample :
    load (save emptyStore "vk_cart" Json.null) "vk_cart" (Json.num 42)
      = Json.num 42 ∧
    Json.num 42 ≠ Json.null :=
  ⟨rfl, fun h => Json.noConfusion h⟩

end VietKy
